import Mathlib

/-!
Shallow embedding of the crypto-tracker dashboard (src/crypto-tracker/src/App.jsx)
and proofs about its filter/merge engine, market-data client and detail view.

Numbers coming from the market API (prices, 24h change percentages, market caps)
are modelled as rationals; strings as Lean strings; JS `Array.prototype.filter`
as `List.filter`, `Array.prototype.sort` with a numeric comparator as a stable
insertion sort by the corresponding total order, and `String.prototype.includes`
after `toLowerCase` as substring containment on the lower-cased character lists.
-/

namespace CryptoTracker

/-- The Coin record shape stored in the coin list and produced by the market
data client (id, symbol, name, image, current_price,
price_change_percentage_24h, market_cap). -/
structure Coin where
  id : String
  symbol : String
  name : String
  image : String
  current_price : Rat
  price_change_percentage_24h : Rat
  market_cap : Rat
deriving DecidableEq, Repr

/-- The active filter of the view state: one of `all`, `gainers`, `losers`. -/
inductive Filter where
  | all
  | gainers
  | losers
deriving DecidableEq, Repr

/-- `needlePre needle hay` is true when `needle` is an initial segment of
`hay` (character lists). -/
def needlePre : List Char → List Char → Bool
  | [], _ => true
  | _ :: _, [] => false
  | a :: as, b :: bs => a == b && needlePre as bs

/-- `containsSub needle hay`: `needle` occurs as a contiguous substring of
`hay`; this is the semantics of JS `hay.includes(needle)` at character level. -/
def containsSub (needle : List Char) : List Char → Bool
  | [] => needle.isEmpty
  | b :: bs => needlePre needle (b :: bs) || containsSub needle bs

/-- Lower-casing of a string at character level, the model of JS
`toLowerCase` (identical to `String.toLower`, written over the character
list). -/
def lowered (s : String) : List Char :=
  s.data.map Char.toLower

/-- The search predicate of `filteredAndSortedCoins` (App.jsx lines 330-333):
`coin.name.toLowerCase().includes(searchTerm.toLowerCase()) ||
 coin.symbol.toLowerCase().includes(searchTerm.toLowerCase())`. -/
def searchMatch (searchTerm : String) (c : Coin) : Bool :=
  containsSub (lowered searchTerm) (lowered c.name) ||
  containsSub (lowered searchTerm) (lowered c.symbol)

/-- Order used by the `gainers` sort `(a, b) => b.pct - a.pct`, i.e. `a`
precedes `b` when `b.pct ≤ a.pct` (descending by 24h change). -/
def gainersRel (a b : Coin) : Prop :=
  b.price_change_percentage_24h ≤ a.price_change_percentage_24h

/-- Order used by the `losers` sort `(a, b) => a.pct - b.pct`, i.e. `a`
precedes `b` when `a.pct ≤ b.pct` (ascending by 24h change). -/
def losersRel (a b : Coin) : Prop :=
  a.price_change_percentage_24h ≤ b.price_change_percentage_24h

instance : DecidableRel gainersRel := fun _ _ =>
  inferInstanceAs (Decidable (_ ≤ _))

instance : DecidableRel losersRel := fun _ _ =>
  inferInstanceAs (Decidable (_ ≤ _))

instance : IsTotal Coin gainersRel :=
  ⟨fun a b => le_total b.price_change_percentage_24h a.price_change_percentage_24h⟩

instance : IsTrans Coin gainersRel :=
  ⟨fun _ _ _ hab hbc => le_trans hbc hab⟩

instance : IsTotal Coin losersRel :=
  ⟨fun a b => le_total a.price_change_percentage_24h b.price_change_percentage_24h⟩

instance : IsTrans Coin losersRel :=
  ⟨fun _ _ _ hab hbc => le_trans hab hbc⟩

/-- Steps 1-2 of `filteredAndSortedCoins` (App.jsx lines 330-344): the search
filter followed by the `switch (filter)` restriction and sort. -/
def stepTwo (coins : List Coin) (searchTerm : String) (f : Filter) : List Coin :=
  let filtered := coins.filter (searchMatch searchTerm)
  match f with
  | .all => filtered
  | .gainers =>
      List.insertionSort gainersRel
        (filtered.filter (fun c => decide (0 < c.price_change_percentage_24h)))
  | .losers =>
      List.insertionSort losersRel
        (filtered.filter (fun c => decide (c.price_change_percentage_24h < 0)))

/-- The `vanryMatchesFilter` condition of App.jsx lines 350-352:
`filter === 'all' || (filter === 'gainers' && pct > 0) ||
(filter === 'losers' && pct < 0)`. -/
def vanryMatchesFilterB (f : Filter) (v : Coin) : Bool :=
  match f with
  | .all => true
  | .gainers => decide (0 < v.price_change_percentage_24h)
  | .losers => decide (v.price_change_percentage_24h < 0)

/-- The full merge `filteredAndSortedCoins` (App.jsx lines 329-361): search
filter, gainers/losers restriction and sort, then — when `vanryData` is
present and matches both predicates — removal of every coin whose id is the
hardcoded `"vanar-chain"` and prepending of `vanryData`. -/
def filteredAndSortedCoins (coins : List Coin) (vanryData : Option Coin)
    (searchTerm : String) (f : Filter) : List Coin :=
  let filtered := stepTwo coins searchTerm f
  match vanryData with
  | some v =>
      if searchMatch searchTerm v && vanryMatchesFilterB f v then
        v :: filtered.filter (fun c => decide (c.id ≠ "vanar-chain"))
      else filtered
  | none => filtered

/-- The part of the merged list contributed by the pinned coin: `[v]` when the
pinned record is present and matches both predicates, `[]` otherwise. -/
def pinnedPart (vanryData : Option Coin) (searchTerm : String) (f : Filter) : List Coin :=
  match vanryData with
  | some v =>
      if searchMatch searchTerm v && vanryMatchesFilterB f v then [v] else []
  | none => []

/-- The non-pinned portion of the merged list: the filtered (and possibly
sorted) generic list, minus the `"vanar-chain"` dedup when the pinned coin is
prepended. -/
def nonPinnedPortion (coins : List Coin) (vanryData : Option Coin)
    (searchTerm : String) (f : Filter) : List Coin :=
  match vanryData with
  | some v =>
      if searchMatch searchTerm v && vanryMatchesFilterB f v then
        (stepTwo coins searchTerm f).filter (fun c => decide (c.id ≠ "vanar-chain"))
      else stepTwo coins searchTerm f
  | none => stepTwo coins searchTerm f

theorem merge_decomp (coins : List Coin) (v : Option Coin) (s : String) (f : Filter) :
    filteredAndSortedCoins coins v s f =
      pinnedPart v s f ++ nonPinnedPortion coins v s f := by
  cases v with
  | none => rfl
  | some p =>
      by_cases h : (searchMatch s p && vanryMatchesFilterB f p) = true
      · simp [filteredAndSortedCoins, pinnedPart, nonPinnedPortion, h]
      · simp [filteredAndSortedCoins, pinnedPart, nonPinnedPortion, h]

theorem containsSub_nil_left (hay : List Char) : containsSub [] hay = true := by
  cases hay <;> simp [containsSub, needlePre, List.isEmpty]

theorem searchMatch_empty (c : Coin) : searchMatch "" c = true := by
  simp [searchMatch, lowered, containsSub_nil_left]

theorem filter_searchMatch_empty (coins : List Coin) :
    coins.filter (searchMatch "") = coins :=
  List.filter_eq_self.mpr (fun c _ => searchMatch_empty c)

theorem mem_stepTwo (coins : List Coin) (s : String) (f : Filter) (c : Coin)
    (hc : c ∈ stepTwo coins s f) : c ∈ coins ∧ searchMatch s c = true := by
  cases f with
  | all => exact List.mem_filter.mp hc
  | gainers =>
      have h := (List.mem_insertionSort gainersRel).mp hc
      have h' := (List.mem_filter.mp h).1
      exact List.mem_filter.mp h'
  | losers =>
      have h := (List.mem_insertionSort losersRel).mp hc
      have h' := (List.mem_filter.mp h).1
      exact List.mem_filter.mp h'

theorem mem_stepTwo_gainers (coins : List Coin) (s : String) (c : Coin)
    (hc : c ∈ stepTwo coins s .gainers) : 0 < c.price_change_percentage_24h := by
  have h := (List.mem_insertionSort gainersRel).mp hc
  have h' := (List.mem_filter.mp h).2
  simpa using h'

theorem mem_stepTwo_losers (coins : List Coin) (s : String) (c : Coin)
    (hc : c ∈ stepTwo coins s .losers) : c.price_change_percentage_24h < 0 := by
  have h := (List.mem_insertionSort losersRel).mp hc
  have h' := (List.mem_filter.mp h).2
  simpa using h'

theorem stepTwo_gainers_sorted (coins : List Coin) (s : String) :
    List.Pairwise gainersRel (stepTwo coins s .gainers) :=
  List.sorted_insertionSort gainersRel _

theorem stepTwo_losers_sorted (coins : List Coin) (s : String) :
    List.Pairwise losersRel (stepTwo coins s .losers) :=
  List.sorted_insertionSort losersRel _

theorem merge_eq_of_match (coins : List Coin) (p : Coin) (s : String) (f : Filter)
    (h : (searchMatch s p && vanryMatchesFilterB f p) = true) :
    filteredAndSortedCoins coins (some p) s f =
      p :: (stepTwo coins s f).filter (fun c => decide (c.id ≠ "vanar-chain")) := by
  simp [filteredAndSortedCoins, h]

theorem merge_eq_of_not_match (coins : List Coin) (p : Coin) (s : String) (f : Filter)
    (h : (searchMatch s p && vanryMatchesFilterB f p) = false) :
    filteredAndSortedCoins coins (some p) s f = stepTwo coins s f := by
  simp [filteredAndSortedCoins, h]

theorem pinned_not_mem_of_not_match (coins : List Coin) (p : Coin) (s : String)
    (f : Filter) (h : (searchMatch s p && vanryMatchesFilterB f p) = false) :
    p ∉ filteredAndSortedCoins coins (some p) s f := by
  rw [merge_eq_of_not_match coins p s f h]
  intro hmem
  have hsearch := (mem_stepTwo coins s f p hmem).2
  rcases Bool.and_eq_false_iff.mp h with h1 | h2
  · exact absurd hsearch (by simp [h1])
  · cases f with
    | all => simp [vanryMatchesFilterB] at h2
    | gainers =>
        have hg := mem_stepTwo_gainers coins s p hmem
        simp only [vanryMatchesFilterB] at h2
        exact absurd hg (of_decide_eq_false h2)
    | losers =>
        have hl := mem_stepTwo_losers coins s p hmem
        simp only [vanryMatchesFilterB] at h2
        exact absurd hl (of_decide_eq_false h2)

theorem nonPinnedPortion_sub_stepTwo (coins : List Coin) (v : Option Coin)
    (s : String) (f : Filter) (c : Coin) (hc : c ∈ nonPinnedPortion coins v s f) :
    c ∈ stepTwo coins s f := by
  cases v with
  | none => exact hc
  | some p =>
      simp only [nonPinnedPortion] at hc
      by_cases h : (searchMatch s p && vanryMatchesFilterB f p) = true
      · rw [if_pos h] at hc
        exact (List.mem_filter.mp hc).1
      · rw [if_neg h] at hc
        exact hc

theorem stepTwo_all (coins : List Coin) (s : String) :
    stepTwo coins s .all = coins.filter (searchMatch s) := rfl

theorem nonPinnedPortion_sublist (coins : List Coin) (v : Option Coin)
    (s : String) (f : Filter) :
    List.Sublist (nonPinnedPortion coins v s f) (stepTwo coins s f) := by
  cases v with
  | none => exact List.Sublist.refl _
  | some p =>
      simp only [nonPinnedPortion]
      by_cases h : (searchMatch s p && vanryMatchesFilterB f p) = true
      · rw [if_pos h]
        exact List.filter_sublist _
      · rw [if_neg h]

/-- Concrete coins used in scenario theorems and counterexamples. -/
def alphaC : Coin := ⟨"a", "a", "Alpha", "", 1, 5, 1⟩

def betaC : Coin := ⟨"b", "b", "Beta", "", 1, -3, 1⟩

def pinnedC : Coin := ⟨"p", "p", "Pinned", "", 1, 2, 1⟩

def dupC : Coin := ⟨"p", "pp", "PinnedCopy", "", 1, 3, 1⟩

def pinnedQ : Coin := ⟨"q", "q", "Quining", "", 1, 4, 1⟩

def dupQ : Coin := ⟨"q", "qq", "QuiCopy", "", 1, 6, 1⟩

def vanryC : Coin := ⟨"vanar-chain", "vanry", "Vanry", "", 1, 2, 1⟩

def vanZeroC : Coin := ⟨"vanar-chain", "z", "Zero", "", 1, 0, 1⟩

def zeroC : Coin := ⟨"z", "z", "Zed", "", 1, 0, 1⟩

/-- C2: under `gainers` the merged result is (an optional prepended pinned
coin) ++ a non-pinned portion whose every element has positive 24h change and
which is pairwise descending by that field; under `losers`, symmetrically,
negative change and pairwise ascending. -/
theorem gainers_losers_shape (coins : List Coin) (v : Option Coin) (s : String) :
    (filteredAndSortedCoins coins v s .gainers =
        pinnedPart v s .gainers ++ nonPinnedPortion coins v s .gainers) ∧
    (∀ c ∈ nonPinnedPortion coins v s .gainers, 0 < c.price_change_percentage_24h) ∧
    List.Pairwise gainersRel (nonPinnedPortion coins v s .gainers) ∧
    (filteredAndSortedCoins coins v s .losers =
        pinnedPart v s .losers ++ nonPinnedPortion coins v s .losers) ∧
    (∀ c ∈ nonPinnedPortion coins v s .losers, c.price_change_percentage_24h < 0) ∧
    List.Pairwise losersRel (nonPinnedPortion coins v s .losers) := by
  refine ⟨merge_decomp coins v s .gainers, ?_, ?_, merge_decomp coins v s .losers, ?_, ?_⟩
  · intro c hc
    exact mem_stepTwo_gainers coins s c (nonPinnedPortion_sub_stepTwo coins v s .gainers c hc)
  · exact (stepTwo_gainers_sorted coins s).sublist (nonPinnedPortion_sublist coins v s .gainers)
  · intro c hc
    exact mem_stepTwo_losers coins s c (nonPinnedPortion_sub_stepTwo coins v s .losers c hc)
  · exact (stepTwo_losers_sorted coins s).sublist (nonPinnedPortion_sublist coins v s .losers)

/-- Witness for C2 at a concrete coin list, pinned record and search term. -/
theorem gainers_losers_shape_witness :
    (filteredAndSortedCoins [alphaC, betaC] (some pinnedC) "" .gainers =
        pinnedPart (some pinnedC) "" .gainers ++
          nonPinnedPortion [alphaC, betaC] (some pinnedC) "" .gainers) ∧
    (∀ c ∈ nonPinnedPortion [alphaC, betaC] (some pinnedC) "" .gainers,
        0 < c.price_change_percentage_24h) ∧
    List.Pairwise gainersRel (nonPinnedPortion [alphaC, betaC] (some pinnedC) "" .gainers) ∧
    (filteredAndSortedCoins [alphaC, betaC] (some pinnedC) "" .losers =
        pinnedPart (some pinnedC) "" .losers ++
          nonPinnedPortion [alphaC, betaC] (some pinnedC) "" .losers) ∧
    (∀ c ∈ nonPinnedPortion [alphaC, betaC] (some pinnedC) "" .losers,
        c.price_change_percentage_24h < 0) ∧
    List.Pairwise losersRel (nonPinnedPortion [alphaC, betaC] (some pinnedC) "" .losers) :=
  gainers_losers_shape [alphaC, betaC] (some pinnedC) ""

/-- C3: every coin of the merged result, including a prepended pinned coin,
matches the search predicate. -/
theorem merged_matches_search (coins : List Coin) (v : Option Coin) (s : String)
    (f : Filter) (c : Coin) (hc : c ∈ filteredAndSortedCoins coins v s f) :
    searchMatch s c = true := by
  rw [merge_decomp] at hc
  rcases List.mem_append.mp hc with h | h
  · cases v with
    | none => simp [pinnedPart] at h
    | some p =>
        simp only [pinnedPart] at h
        by_cases hm : (searchMatch s p && vanryMatchesFilterB f p) = true
        · rw [if_pos hm] at h
          rw [List.mem_singleton.mp h]
          have hm2 : searchMatch s p = true ∧ vanryMatchesFilterB f p = true := by
            simpa using hm
          exact hm2.1
        · rw [if_neg hm] at h
          simp at h
  · exact (mem_stepTwo coins s f c (nonPinnedPortion_sub_stepTwo coins v s f c h)).2

/-- Witness for C3: Alpha is in the merged result for search term "lph" and
indeed matches it. -/
theorem merged_matches_search_witness : searchMatch "lph" alphaC = true :=
  merged_matches_search [alphaC, betaC] (some pinnedC) "lph" .all alphaC (by decide)

/-- C4: whenever the pinned coin is a member of the merged result, it is the
head of the result (index 0), for every filter and search term. -/
theorem pinned_first (coins : List Coin) (p : Coin) (s : String) (f : Filter)
    (h : p ∈ filteredAndSortedCoins coins (some p) s f) :
    (filteredAndSortedCoins coins (some p) s f).head? = some p := by
  by_cases hm : (searchMatch s p && vanryMatchesFilterB f p) = true
  · rw [merge_eq_of_match coins p s f hm]
    rfl
  · have hm' : (searchMatch s p && vanryMatchesFilterB f p) = false := by
      simpa using hm
    exact absurd h (pinned_not_mem_of_not_match coins p s f hm')

/-- Witness for C4 at a concrete input where the pinned coin is present. -/
theorem pinned_first_witness :
    (filteredAndSortedCoins [alphaC, betaC] (some pinnedC) "" .all).head? = some pinnedC :=
  pinned_first [alphaC, betaC] pinnedC "" .all (by decide)

/-- C6: on the spec's concrete scenario (Alpha +5, Beta -3, pinned +2,
filter gainers, empty search) the merge returns exactly [Pinned, Alpha]. -/
theorem scenario_gainers :
    filteredAndSortedCoins [alphaC, betaC] (some pinnedC) "" .gainers =
      [pinnedC, alphaC] := by decide

theorem mem_merge_elim (coins : List Coin) (v : Option Coin) (s : String)
    (f : Filter) (c : Coin) (hc : c ∈ filteredAndSortedCoins coins v s f) :
    c ∈ stepTwo coins s f ∨
      ((searchMatch s c && vanryMatchesFilterB f c) = true ∧ v = some c) := by
  rw [merge_decomp] at hc
  rcases List.mem_append.mp hc with h | h
  · right
    cases v with
    | none => simp [pinnedPart] at h
    | some p =>
        simp only [pinnedPart] at h
        by_cases hm : (searchMatch s p && vanryMatchesFilterB f p) = true
        · rw [if_pos hm] at h
          have hcp := List.mem_singleton.mp h
          subst hcp
          exact ⟨hm, rfl⟩
        · rw [if_neg hm] at h
          simp at h
  · left
    exact nonPinnedPortion_sub_stepTwo coins v s f c h

theorem zero_not_mem_gainers (coins : List Coin) (v : Option Coin) (s : String)
    (c : Coin) (h0 : c.price_change_percentage_24h = 0) :
    c ∉ filteredAndSortedCoins coins v s .gainers := by
  intro hc
  rcases mem_merge_elim coins v s .gainers c hc with h | ⟨hm, _⟩
  · have hg := mem_stepTwo_gainers coins s c h
    rw [h0] at hg
    exact lt_irrefl 0 hg
  · have hm2 : searchMatch s c = true ∧ vanryMatchesFilterB .gainers c = true := by
      simpa using hm
    have h2 := hm2.2
    simp only [vanryMatchesFilterB] at h2
    have h3 := of_decide_eq_true h2
    rw [h0] at h3
    exact lt_irrefl 0 h3

theorem zero_not_mem_losers (coins : List Coin) (v : Option Coin) (s : String)
    (c : Coin) (h0 : c.price_change_percentage_24h = 0) :
    c ∉ filteredAndSortedCoins coins v s .losers := by
  intro hc
  rcases mem_merge_elim coins v s .losers c hc with h | ⟨hm, _⟩
  · have hl := mem_stepTwo_losers coins s c h
    rw [h0] at hl
    exact lt_irrefl 0 hl
  · have hm2 : searchMatch s c = true ∧ vanryMatchesFilterB .losers c = true := by
      simpa using hm
    have h2 := hm2.2
    simp only [vanryMatchesFilterB] at h2
    have h3 := of_decide_eq_true h2
    rw [h0] at h3
    exact lt_irrefl 0 h3

/-- C1 (amended): when the pinned record's id is the hardcoded
`"vanar-chain"` — as every record delivered by the pinned-coin fetch has —
the merge includes the pinned coin iff it independently matches both the
search and the filter predicate; on a match the result is the pinned coin
prepended to the filtered list purged of every coin sharing its id; on a
mismatch it is entirely absent; in particular a pinned coin with positive
24h change is absent under filter = losers for every search term. -/
theorem pinned_visibility (coins : List Coin) (p : Coin) (s : String) (f : Filter)
    (hid : p.id = "vanar-chain") :
    (p ∈ filteredAndSortedCoins coins (some p) s f ↔
        (searchMatch s p && vanryMatchesFilterB f p) = true) ∧
    ((searchMatch s p && vanryMatchesFilterB f p) = true →
        filteredAndSortedCoins coins (some p) s f =
          p :: (stepTwo coins s f).filter (fun c => decide (c.id ≠ p.id))) ∧
    ((searchMatch s p && vanryMatchesFilterB f p) = false →
        p ∉ filteredAndSortedCoins coins (some p) s f) ∧
    (0 < p.price_change_percentage_24h →
        p ∉ filteredAndSortedCoins coins (some p) s .losers) := by
  refine ⟨⟨?_, ?_⟩, ?_, ?_, ?_⟩
  · intro hmem
    by_cases hm : (searchMatch s p && vanryMatchesFilterB f p) = true
    · exact hm
    · have hm' : (searchMatch s p && vanryMatchesFilterB f p) = false := by simpa using hm
      exact absurd hmem (pinned_not_mem_of_not_match coins p s f hm')
  · intro hm
    rw [merge_eq_of_match coins p s f hm]
    exact List.mem_cons_self _ _
  · intro hm
    rw [hid]
    exact merge_eq_of_match coins p s f hm
  · exact pinned_not_mem_of_not_match coins p s f
  · intro hpos
    apply pinned_not_mem_of_not_match
    have hvf : vanryMatchesFilterB .losers p = false := by
      simp only [vanryMatchesFilterB]
      exact decide_eq_false (lt_asymm hpos)
    simp [hvf]

/-- Witness for C1 at a concrete pinned record with id "vanar-chain". -/
theorem pinned_visibility_witness :
    (vanryC ∈ filteredAndSortedCoins [alphaC] (some vanryC) "" .all ↔
        (searchMatch "" vanryC && vanryMatchesFilterB .all vanryC) = true) ∧
    ((searchMatch "" vanryC && vanryMatchesFilterB .all vanryC) = true →
        filteredAndSortedCoins [alphaC] (some vanryC) "" .all =
          vanryC :: (stepTwo [alphaC] "" .all).filter (fun c => decide (c.id ≠ vanryC.id))) ∧
    ((searchMatch "" vanryC && vanryMatchesFilterB .all vanryC) = false →
        vanryC ∉ filteredAndSortedCoins [alphaC] (some vanryC) "" .all) ∧
    (0 < vanryC.price_change_percentage_24h →
        vanryC ∉ filteredAndSortedCoins [alphaC] (some vanryC) "" .losers) :=
  pinned_visibility [alphaC] vanryC "" .all rfl

/-- C1 counterexample: with a pinned record whose id is "p" (not the
hardcoded "vanar-chain"), the pinned coin matches both predicates yet a
distinct coin sharing its id survives in the merged result, contradicting
"every coin sharing its id is removed from the filtered list". -/
theorem pinned_visibility_counterexample :
    (searchMatch "" pinnedC && vanryMatchesFilterB .all pinnedC) = true ∧
    dupC.id = pinnedC.id ∧
    dupC ≠ pinnedC ∧
    dupC ∈ filteredAndSortedCoins [dupC] (some pinnedC) "" .all := by decide

/-- C5 (amended): with empty search and filter = all, when the pinned record
is present and its id is the hardcoded "vanar-chain", the merge is the pinned
coin followed by every generic coin in original order minus those sharing its
id; when the pinned record is absent the generic list is returned unchanged. -/
theorem merge_id_empty_all (coins : List Coin) (p : Coin) :
    (p.id = "vanar-chain" →
        filteredAndSortedCoins coins (some p) "" .all =
          p :: coins.filter (fun c => decide (c.id ≠ p.id))) ∧
    filteredAndSortedCoins coins none "" .all = coins := by
  constructor
  · intro hid
    have hcond : (searchMatch "" p && vanryMatchesFilterB .all p) = true := by
      simp [searchMatch_empty, vanryMatchesFilterB]
    rw [hid, merge_eq_of_match coins p "" .all hcond, stepTwo_all, filter_searchMatch_empty]
  · show stepTwo coins "" .all = coins
    rw [stepTwo_all, filter_searchMatch_empty]

/-- Witness for C5 at a concrete coin list and the pinned record with id
"vanar-chain". -/
theorem merge_id_empty_all_witness :
    filteredAndSortedCoins [alphaC, betaC] (some vanryC) "" .all =
      vanryC :: [alphaC, betaC].filter (fun c => decide (c.id ≠ vanryC.id)) ∧
    filteredAndSortedCoins [alphaC, betaC] none "" .all = [alphaC, betaC] :=
  ⟨(merge_id_empty_all [alphaC, betaC] vanryC).1 rfl,
   (merge_id_empty_all [alphaC, betaC] vanryC).2⟩

/-- C5 counterexample: with empty search and filter = all and a pinned record
whose id is "q", a distinct generic coin sharing id "q" is not removed, so
the result is not "all generic coins with the pinned coin's id removed". -/
theorem merge_id_empty_all_counterexample :
    filteredAndSortedCoins [dupQ] (some pinnedQ) "" .all = [pinnedQ, dupQ] ∧
    dupQ.id = pinnedQ.id ∧
    dupQ ≠ pinnedQ := by decide

/-- C10 (amended): a coin with exactly zero 24h change that matches the
search appears under filter = all provided the pinned dedup does not remove
it (no matching pinned record present, or the coin's id differs from the
hardcoded "vanar-chain"); it appears under neither gainers nor losers; and a
pinned record with exactly zero change is shown only under filter = all. -/
theorem zero_change_visibility (coins : List Coin) (v : Option Coin) (s : String)
    (c : Coin) (h0 : c.price_change_percentage_24h = 0) :
    (c ∈ coins → searchMatch s c = true →
        (pinnedPart v s .all = [] ∨ c.id ≠ "vanar-chain") →
        c ∈ filteredAndSortedCoins coins v s .all) ∧
    c ∉ filteredAndSortedCoins coins v s .gainers ∧
    c ∉ filteredAndSortedCoins coins v s .losers ∧
    (searchMatch s c = true → c ∈ filteredAndSortedCoins coins (some c) s .all) ∧
    c ∉ filteredAndSortedCoins coins (some c) s .gainers ∧
    c ∉ filteredAndSortedCoins coins (some c) s .losers := by
  refine ⟨?_, zero_not_mem_gainers coins v s c h0, zero_not_mem_losers coins v s c h0,
    ?_, zero_not_mem_gainers coins (some c) s c h0, zero_not_mem_losers coins (some c) s c h0⟩
  · intro hmem hsearch hdedup
    have hst : c ∈ stepTwo coins s .all := by
      rw [stepTwo_all]
      exact List.mem_filter.mpr ⟨hmem, hsearch⟩
    cases v with
    | none => exact hst
    | some p =>
        by_cases hm : (searchMatch s p && vanryMatchesFilterB .all p) = true
        · rw [merge_eq_of_match coins p s .all hm]
          apply List.mem_cons_of_mem
          apply List.mem_filter.mpr
          refine ⟨hst, ?_⟩
          rcases hdedup with hempty | hne
          · simp only [pinnedPart, if_pos hm] at hempty
            exact absurd hempty (List.cons_ne_nil p [])
          · simpa using hne
        · rw [merge_eq_of_not_match coins p s .all (by simpa using hm)]
          exact hst
  · intro hsearch
    have hm : (searchMatch s c && vanryMatchesFilterB .all c) = true := by
      simp [hsearch, vanryMatchesFilterB]
    rw [merge_eq_of_match coins c s .all hm]
    exact List.mem_cons_self _ _

/-- Witness for C10 at a concrete zero-change coin with no pinned record. -/
theorem zero_change_visibility_witness :
    (zeroC ∈ [zeroC] → searchMatch "" zeroC = true →
        (pinnedPart none "" .all = [] ∨ zeroC.id ≠ "vanar-chain") →
        zeroC ∈ filteredAndSortedCoins [zeroC] none "" .all) ∧
    zeroC ∉ filteredAndSortedCoins [zeroC] none "" .gainers ∧
    zeroC ∉ filteredAndSortedCoins [zeroC] none "" .losers ∧
    (searchMatch "" zeroC = true → zeroC ∈ filteredAndSortedCoins [zeroC] (some zeroC) "" .all) ∧
    zeroC ∉ filteredAndSortedCoins [zeroC] (some zeroC) "" .gainers ∧
    zeroC ∉ filteredAndSortedCoins [zeroC] (some zeroC) "" .losers :=
  zero_change_visibility [zeroC] none "" zeroC rfl

/-- C10 counterexample: a zero-change coin whose id happens to be
"vanar-chain" is removed by the pinned dedup even under filter = all with a
matching search, so the claim as stated fails. -/
theorem zero_change_visibility_counterexample :
    vanZeroC.price_change_percentage_24h = 0 ∧
    searchMatch "" vanZeroC = true ∧
    vanZeroC ∈ [vanZeroC] ∧
    vanZeroC ∉ filteredAndSortedCoins [vanZeroC] (some vanryC) "" .all := by decide

/-! Market data client (App.jsx lines 27-79). Each operation awaits a fetch
whose outcome is either a transport failure (the promise rejects) or an HTTP
response with an `ok` flag and a parsed JSON body; a non-ok response makes the
body `throw new Error(...)`, and the surrounding `try/catch` converts every
thrown error into the empty/absent fallback value. -/

/-- Outcome of one `fetch` as observed by the client code: transport failure,
or an HTTP response with its `ok` status and parsed body. -/
inductive FetchOutcome (α : Type) where
  | transportError : FetchOutcome α
  | httpResponse (ok : Bool) (body : α) : FetchOutcome α
deriving DecidableEq, Repr

/-- A fetch outcome on which the client's happy path cannot proceed: the
transport failed or the HTTP status was non-success. -/
def FetchOutcome.isFailure {α : Type} : FetchOutcome α → Bool
  | .transportError => true
  | .httpResponse ok _ => !ok

/-- The raw single-coin response of `GET /coins/{id}` as accessed by
`fetchVanryData`: plain `id`, `symbol`, `name` fields and optionally-present
nested fields reached through optional chaining. -/
structure RawCoinData where
  id : String
  symbol : String
  name : String
  image_large : Option String
  market_data_current_price_usd : Option Rat
  market_data_price_change_percentage_24h : Option Rat
  market_data_market_cap_usd : Option Rat
deriving DecidableEq, Repr

/-- The record `fetchVanryData` builds from the raw response; the optionally
chained fields stay absent (JS `undefined`) when missing. -/
structure VanryCoin where
  id : String
  symbol : String
  name : String
  image : Option String
  current_price : Option Rat
  price_change_percentage_24h : Option Rat
  market_cap : Option Rat
deriving DecidableEq, Repr

/-- A chart point built by `fetchChartData` from one `[timestamp, price]`
pair: `{ date: new Date(timestamp).toLocaleDateString(), price, timestamp }`.
The locale-dependent date label is abstracted as a parameter. -/
structure PricePoint where
  date : String
  price : Rat
  timestamp : Int
deriving DecidableEq, Repr

/-- Body of `fetchCoins` (App.jsx lines 28-38) up to the `catch`: reject on
transport failure, `throw new Error('Failed to fetch coins')` on a non-ok
status, otherwise return the parsed coin array. -/
def fetchCoinsBody (r : FetchOutcome (List Coin)) : Except String (List Coin) :=
  match r with
  | .transportError => .error "network error"
  | .httpResponse ok body =>
      if ok then .ok body else .error "Failed to fetch coins"

/-- `fetchCoins` with its `try/catch`: any thrown error is logged and an
empty array is returned. -/
def fetchCoins (r : FetchOutcome (List Coin)) : List Coin :=
  match fetchCoinsBody r with
  | .ok v => v
  | .error _ => []

/-- Body of `fetchVanryData` (App.jsx lines 41-54) up to the `catch`: reject
on transport failure, throw on non-ok status, otherwise project the raw
response into the pinned-coin record through optional chaining. -/
def fetchVanryBody (r : FetchOutcome RawCoinData) : Except String VanryCoin :=
  match r with
  | .transportError => .error "network error"
  | .httpResponse ok d =>
      if ok then
        .ok { id := d.id, symbol := d.symbol, name := d.name,
              image := d.image_large,
              current_price := d.market_data_current_price_usd,
              price_change_percentage_24h := d.market_data_price_change_percentage_24h,
              market_cap := d.market_data_market_cap_usd }
      else .error "Failed to fetch Vanry data"

/-- `fetchVanryData` with its `try/catch`: any thrown error is logged and
`null` (here `none`) is returned. -/
def fetchVanryData (r : FetchOutcome RawCoinData) : Option VanryCoin :=
  match fetchVanryBody r with
  | .ok v => some v
  | .error _ => none

/-- Body of `fetchChartData` (App.jsx lines 61-73) up to the `catch`: reject
on transport failure, throw on non-ok status, otherwise map the `prices`
array of `[timestamp, price]` pairs to chart points; `dateLabel` abstracts
the locale-dependent `new Date(ts).toLocaleDateString()`. -/
def fetchChartBody (dateLabel : Int → String)
    (r : FetchOutcome (List (Int × Rat))) : Except String (List PricePoint) :=
  match r with
  | .transportError => .error "network error"
  | .httpResponse ok prices =>
      if ok then
        .ok (prices.map (fun q => { date := dateLabel q.1, price := q.2, timestamp := q.1 }))
      else .error "Failed to fetch chart data"

/-- `fetchChartData` with its `try/catch`: any thrown error is logged and an
empty array is returned. -/
def fetchChartData (dateLabel : Int → String)
    (r : FetchOutcome (List (Int × Rat))) : List PricePoint :=
  match fetchChartBody dateLabel r with
  | .ok v => v
  | .error _ => []

/-- C7: on every failing fetch outcome (transport failure or non-success
status) `fetchCoins` returns the empty list, `fetchVanryData` returns `none`
and `fetchChartData` returns the empty list; moreover every error thrown
inside any of the three bodies is caught and converted to the same fallback,
so no error value leaves the client. -/
theorem client_fail_soft (rc : FetchOutcome (List Coin))
    (rv : FetchOutcome RawCoinData) (rh : FetchOutcome (List (Int × Rat)))
    (dateLabel : Int → String)
    (hc : rc.isFailure = true) (hv : rv.isFailure = true) (hh : rh.isFailure = true) :
    fetchCoins rc = [] ∧
    fetchVanryData rv = none ∧
    fetchChartData dateLabel rh = [] ∧
    (∀ e : String, fetchCoinsBody rc = .error e → fetchCoins rc = []) ∧
    (∀ e : String, fetchVanryBody rv = .error e → fetchVanryData rv = none) ∧
    (∀ e : String, fetchChartBody dateLabel rh = .error e → fetchChartData dateLabel rh = []) := by
  refine ⟨?_, ?_, ?_, ?_, ?_, ?_⟩
  · cases rc with
    | transportError => rfl
    | httpResponse ok body =>
        simp only [FetchOutcome.isFailure, Bool.not_eq_true'] at hc
        simp [fetchCoins, fetchCoinsBody, hc]
  · cases rv with
    | transportError => rfl
    | httpResponse ok body =>
        simp only [FetchOutcome.isFailure, Bool.not_eq_true'] at hv
        simp [fetchVanryData, fetchVanryBody, hv]
  · cases rh with
    | transportError => rfl
    | httpResponse ok body =>
        simp only [FetchOutcome.isFailure, Bool.not_eq_true'] at hh
        simp [fetchChartData, fetchChartBody, hh]
  · intro e he
    simp [fetchCoins, he]
  · intro e he
    simp [fetchVanryData, he]
  · intro e he
    simp [fetchChartData, he]

/-- Witness for C7 at concrete failing outcomes (one transport failure, one
non-success status, one transport failure). -/
theorem client_fail_soft_witness :
    fetchCoins .transportError = [] ∧
    fetchVanryData (.httpResponse false ⟨"vanar-chain", "vanry", "Vanry", none, none, none, none⟩) = none ∧
    fetchChartData (fun _ => "d") .transportError = [] ∧
    (∀ e : String, fetchCoinsBody .transportError = .error e →
        fetchCoins .transportError = []) ∧
    (∀ e : String,
        fetchVanryBody (.httpResponse false ⟨"vanar-chain", "vanry", "Vanry", none, none, none, none⟩) = .error e →
        fetchVanryData (.httpResponse false ⟨"vanar-chain", "vanry", "Vanry", none, none, none, none⟩) = none) ∧
    (∀ e : String, fetchChartBody (fun _ => "d") .transportError = .error e →
        fetchChartData (fun _ => "d") .transportError = []) :=
  client_fail_soft .transportError
    (.httpResponse false ⟨"vanar-chain", "vanry", "Vanry", none, none, none, none⟩)
    .transportError (fun _ => "d") rfl rfl rfl

/-! Detail-view chart state (App.jsx lines 245-259). The `CoinDetail` effect
runs on every change of the `coin` prop: it sets `loading` and starts a chart
fetch for the new coin's id; when any started fetch resolves, its handler runs
`setChartData(data); setLoading(false)` unconditionally — there is no
cancellation and no staleness check. The single-threaded event loop is
modelled as a sequence of atomic events (prop change, fetch resolution)
folded over the component state. -/

/-- An atomic event of the detail view: the user selects a coin (the effect
fires and starts a fetch for its id), or a previously started fetch resolves
with its data. -/
inductive DetailEvent where
  | select (id : String)
  | resolve (id : String) (data : List PricePoint)
deriving DecidableEq, Repr

/-- The `CoinDetail` component state: the currently shown coin, the ids of
in-flight chart fetches, and the `chartData` / `loading` state hooks. -/
structure DetailState where
  selected : Option String
  pending : List String
  chartData : List PricePoint
  loading : Bool
deriving DecidableEq, Repr

/-- Initial `CoinDetail` state: `useState([])` and `useState(true)`. -/
def detailInit : DetailState := ⟨none, [], [], true⟩

/-- One step of the detail view. On `select`, the effect body runs:
`setLoading(true)` and the fetch for the selected id is started. On
`resolve` of an in-flight fetch, its continuation runs:
`setChartData(data); setLoading(false)` — applied unconditionally, exactly as
in the source, with no check that the data belongs to the currently selected
coin. -/
def detailStep (st : DetailState) (e : DetailEvent) : DetailState :=
  match e with
  | .select i =>
      { st with selected := some i, loading := true, pending := st.pending ++ [i] }
  | .resolve i d =>
      if st.pending.contains i then
        { st with chartData := d, loading := false, pending := st.pending.erase i }
      else st

/-- Folding a sequence of events from the initial state. -/
def detailRun (es : List DetailEvent) : DetailState :=
  es.foldl detailStep detailInit

/-- C8: the code lacks the stale-response guard. In the interleaving
"select x, select y, y's fetch resolves, x's late fetch resolves", the final
state still shows coin y but holds x's chart data: the late result is
applied, not discarded. -/
theorem stale_chart_applied :
    (detailRun [.select "x", .select "y",
        .resolve "y" [⟨"d", 2, 0⟩], .resolve "x" [⟨"d", 1, 0⟩]]).selected = some "y" ∧
    (detailRun [.select "x", .select "y",
        .resolve "y" [⟨"d", 2, 0⟩], .resolve "x" [⟨"d", 1, 0⟩]]).chartData = [⟨"d", 1, 0⟩] ∧
    ([(⟨"d", 1, 0⟩ : PricePoint)] : List PricePoint) ≠ [⟨"d", 2, 0⟩] := by decide

/-! Store-passing model of `filteredAndSortedCoins`, used to state that the
computation never mutates its inputs. JS arrays live in a heap of array
cells; `Array.prototype.filter` allocates a fresh cell, the spread
`[vanryData, ...filtered]` builds a fresh list, and `Array.prototype.sort`
writes in place into the cell it is called on — which in the source is always
the freshly `filter`ed copy, never the stored `coins` array. -/

/-- A heap of JS arrays of coins; a reference is an index. -/
abbrev Heap := List (List Coin)

/-- Dereference an array cell. -/
def Heap.read (σ : Heap) (r : Nat) : List Coin := σ.getD r []

/-- Allocate a fresh array cell holding `v`, returning its reference. -/
def Heap.alloc (σ : Heap) (v : List Coin) : Nat × Heap := (σ.length, σ ++ [v])

/-- In-place update of an array cell (the effect of `sort`). -/
def Heap.write (σ : Heap) (r : Nat) (v : List Coin) : Heap := σ.set r v

theorem read_append_lt (σ : Heap) (v : List Coin) (r : Nat) (h : r < σ.length) :
    Heap.read (σ ++ [v]) r = σ.read r :=
  List.getD_append σ [v] [] r h

theorem read_append_self (σ : Heap) (v : List Coin) :
    Heap.read (σ ++ [v]) σ.length = v := by
  rw [Heap.read, List.getD_append_right σ [v] [] σ.length (le_refl _)]
  simp

theorem read_write_ne (σ : Heap) (r r' : Nat) (v : List Coin) (h : r ≠ r') :
    Heap.read (Heap.write σ r' v) r = σ.read r := by
  simp [Heap.read, Heap.write, List.getD_eq_getD_get?, List.get?_eq_getElem?]
  rw [List.getElem?_set_ne (Ne.symm h)]

theorem read_write_self (σ : Heap) (r : Nat) (v : List Coin) (h : r < σ.length) :
    Heap.read (Heap.write σ r v) r = v := by
  simp [Heap.read, Heap.write, List.getD_eq_getD_get?, List.get?_eq_getElem?]
  rw [List.getElem?_set_eq_of_lt v h]
  rfl

/-- The `switch (filter)` block (App.jsx lines 335-344) in the heap model:
for gainers/losers, `filtered.filter(...)` allocates a fresh cell and
`.sort(...)` mutates that fresh cell in place; `all` leaves the reference
untouched. Returns the reference holding the resulting `filtered` array. -/
def stepTwoSt (σ1 : Heap) (fr : Nat) (f : Filter) : Nat × Heap :=
  match f with
  | .all => (fr, σ1)
  | .gainers =>
      let ag := σ1.alloc ((σ1.read fr).filter (fun c => decide (0 < c.price_change_percentage_24h)))
      (ag.1, Heap.write ag.2 ag.1 (List.insertionSort gainersRel (Heap.read ag.2 ag.1)))
  | .losers =>
      let al := σ1.alloc ((σ1.read fr).filter (fun c => decide (c.price_change_percentage_24h < 0)))
      (al.1, Heap.write al.2 al.1 (List.insertionSort losersRel (Heap.read al.2 al.1)))

/-- The step-2 result as a function of the already search-filtered array. -/
def stepTwoOnFiltered (filtered : List Coin) (f : Filter) : List Coin :=
  match f with
  | .all => filtered
  | .gainers =>
      List.insertionSort gainersRel
        (filtered.filter (fun c => decide (0 < c.price_change_percentage_24h)))
  | .losers =>
      List.insertionSort losersRel
        (filtered.filter (fun c => decide (c.price_change_percentage_24h < 0)))

theorem stepTwo_eq_onFiltered (coins : List Coin) (s : String) (f : Filter) :
    stepTwo coins s f = stepTwoOnFiltered (coins.filter (searchMatch s)) f := by
  cases f <;> rfl

theorem stepTwoSt_frame (σ1 : Heap) (fr : Nat) (f : Filter) (r : Nat)
    (hr : r < σ1.length) :
    Heap.read (stepTwoSt σ1 fr f).2 r = σ1.read r := by
  cases f with
  | all => rfl
  | gainers =>
      simp only [stepTwoSt, Heap.alloc]
      rw [read_write_ne _ _ _ _ (Nat.ne_of_lt hr), read_append_lt _ _ _ hr]
  | losers =>
      simp only [stepTwoSt, Heap.alloc]
      rw [read_write_ne _ _ _ _ (Nat.ne_of_lt hr), read_append_lt _ _ _ hr]

theorem stepTwoSt_read_result (σ1 : Heap) (fr : Nat) (f : Filter) :
    Heap.read (stepTwoSt σ1 fr f).2 (stepTwoSt σ1 fr f).1 =
      stepTwoOnFiltered (σ1.read fr) f := by
  cases f with
  | all => rfl
  | gainers =>
      simp only [stepTwoSt, Heap.alloc, stepTwoOnFiltered]
      rw [read_write_self _ _ _ (by simp), read_append_self]
  | losers =>
      simp only [stepTwoSt, Heap.alloc, stepTwoOnFiltered]
      rw [read_write_self _ _ _ (by simp), read_append_self]

theorem stepTwoSt_length_le (σ1 : Heap) (fr : Nat) (f : Filter) :
    σ1.length ≤ (stepTwoSt σ1 fr f).2.length := by
  cases f with
  | all => exact le_refl _
  | gainers =>
      simp [stepTwoSt, Heap.alloc, Heap.write]
  | losers =>
      simp [stepTwoSt, Heap.alloc, Heap.write]

/-- Heap model of the whole `filteredAndSortedCoins` computation
(App.jsx lines 329-361): the search `filter` allocates, the switch block is
`stepTwoSt`, the dedup `filter` allocates, and the spread builds the result
list. -/
def filteredAndSortedCoinsSt (σ0 : Heap) (coinsRef : Nat) (vanry : Option Coin)
    (s : String) (f : Filter) : List Coin × Heap :=
  let a1 := σ0.alloc ((σ0.read coinsRef).filter (searchMatch s))
  let a2 := stepTwoSt a1.2 a1.1 f
  match vanry with
  | some p =>
      if searchMatch s p && vanryMatchesFilterB f p then
        let a3 := a2.2.alloc ((Heap.read a2.2 a2.1).filter (fun c => decide (c.id ≠ "vanar-chain")))
        (p :: Heap.read a3.2 a3.1, a3.2)
      else (Heap.read a2.2 a2.1, a2.2)
  | none => (Heap.read a2.2 a2.1, a2.2)

/-- C9: the merge never mutates its inputs. For every heap, every valid
reference to the stored coin list, every pinned record, search term and
filter, the stored coin list reads the same after the computation as before
(the pinned record is passed by value and never written at all), and the
computed result coincides with the pure merge of the stored list — sorting
only ever writes into a freshly allocated filtered copy. -/
theorem merge_no_mutation (σ : Heap) (r : Nat) (v : Option Coin) (s : String)
    (f : Filter) (hr : r < σ.length) :
    Heap.read (filteredAndSortedCoinsSt σ r v s f).2 r = σ.read r ∧
    (filteredAndSortedCoinsSt σ r v s f).1 = filteredAndSortedCoins (σ.read r) v s f := by
  have hr1 : r < (σ ++ [(σ.read r).filter (searchMatch s)]).length := by
    simp
    exact Nat.lt_succ_of_lt hr
  have hfr : Heap.read (σ ++ [(σ.read r).filter (searchMatch s)]) σ.length =
      (σ.read r).filter (searchMatch s) := read_append_self σ _
  have hframe2 : Heap.read (stepTwoSt (σ ++ [(σ.read r).filter (searchMatch s)]) σ.length f).2 r =
      σ.read r := by
    rw [stepTwoSt_frame _ _ _ _ hr1, read_append_lt _ _ _ hr]
  have hres2 : Heap.read (stepTwoSt (σ ++ [(σ.read r).filter (searchMatch s)]) σ.length f).2
      (stepTwoSt (σ ++ [(σ.read r).filter (searchMatch s)]) σ.length f).1 =
      stepTwo (σ.read r) s f := by
    rw [stepTwoSt_read_result, hfr, stepTwo_eq_onFiltered]
  have hr2 : r < (stepTwoSt (σ ++ [(σ.read r).filter (searchMatch s)]) σ.length f).2.length :=
    lt_of_lt_of_le hr1 (stepTwoSt_length_le _ _ _)
  cases v with
  | none =>
      constructor
      · exact hframe2
      · exact hres2
  | some p =>
      by_cases hm : (searchMatch s p && vanryMatchesFilterB f p) = true
      · constructor
        · simp only [filteredAndSortedCoinsSt, Heap.alloc, hm, if_true]
          rw [read_append_lt _ _ _ hr2]
          exact hframe2
        · simp only [filteredAndSortedCoinsSt, Heap.alloc, hm, if_true]
          rw [read_append_self, hres2, merge_eq_of_match _ _ _ _ hm]
      · have hm' : (searchMatch s p && vanryMatchesFilterB f p) = false := by simpa using hm
        constructor
        · simp only [filteredAndSortedCoinsSt, Heap.alloc, hm', Bool.false_eq_true, if_false]
          exact hframe2
        · simp only [filteredAndSortedCoinsSt, Heap.alloc, hm', Bool.false_eq_true, if_false]
          rw [hres2, merge_eq_of_not_match _ _ _ _ hm']

/-- Witness for C9 at a concrete heap holding one coin list. -/
theorem merge_no_mutation_witness :
    Heap.read (filteredAndSortedCoinsSt [[alphaC, betaC]] 0 (some pinnedC) "" .gainers).2 0 =
      Heap.read [[alphaC, betaC]] 0 ∧
    (filteredAndSortedCoinsSt [[alphaC, betaC]] 0 (some pinnedC) "" .gainers).1 =
      filteredAndSortedCoins (Heap.read [[alphaC, betaC]] 0) (some pinnedC) "" .gainers :=
  merge_no_mutation [[alphaC, betaC]] 0 (some pinnedC) "" .gainers (by decide)

end CryptoTracker
